import Mathlib

/-
Verification of the feo6502 6502/RP2A03 emulator core: a shallow embedding of
the address arithmetic (src/lib.rs), the status flags and instruction
semantics (src/famicom.rs), the microcode queue engine
(src/famicom.rs cycle / decode_opcode / decode_addressing together with the
inline addressing module of src/isa6502.rs), and the bus devices
(src/devices.rs, src/famicom/mapper.rs).

Machine integers are modelled as Nat with explicit reduction: u8 values are
kept below 256 and u16 values below 65536 by applying `% 256` / `% 65536`
exactly where the Rust wrapping operations do.  Rust bit operations on
byte-aligned masks are rendered arithmetically where convenient:
`x & 0xff = x % 256`, `(x & 0xff00) >> 8 = x / 256 % 256`, and
`(h << 8) | l = h * 256 + l` for `l < 256`.  Rust panics
(`unimplemented!`, `todo!`, and trait impls that are missing in the live
module tree) are modelled as `Option.none` results of the decoder.
-/

namespace Feo6502

/-! ## Address (src/lib.rs, `struct Address(u16)`) -/

structure Address where
  val : Nat
deriving DecidableEq, Repr

/-- `Address::new(high, low) = ((high as u16) << 8) | (low as u16)` for u8 args. -/
def Address.new (high low : Nat) : Address :=
  ⟨high % 256 * 256 + low % 256⟩

/-- `Address::high = ((self.0 & 0xff00) >> 8) as u8`. -/
def Address.high (a : Address) : Nat := a.val / 256 % 256

/-- `Address::low = (self.0 & 0xff) as u8`. -/
def Address.low (a : Address) : Nat := a.val % 256

/-- `Address::set_high: self.0 = (self.0 & 0xff) | ((high as u16) << 8)`. -/
def Address.setHigh (a : Address) (h : Nat) : Address :=
  ⟨h % 256 * 256 + a.val % 256⟩

/-- `Address::set_low: self.0 = (self.0 & 0xff00) | low as u16`. -/
def Address.setLow (a : Address) (l : Nat) : Address :=
  ⟨a.val / 256 % 256 * 256 + l % 256⟩

/-- `Address::increment: self.0 = self.0.wrapping_add(1)`. -/
def Address.increment (a : Address) : Address := ⟨(a.val + 1) % 65536⟩

/-- `Address::index(i) = Address::new(self.high(), self.low().wrapping_add(index))`:
the low byte wraps, the high byte is untouched. -/
def Address.index (a : Address) (i : Nat) : Address :=
  Address.new a.high ((a.low + i % 256) % 256)

/-- Sign extension of a byte to 16 bits (`operand as i8 as i16`, two's complement). -/
def i8ext (d : Nat) : Nat := if d % 256 < 128 then d % 256 else d % 256 + 65280

/-- `Address::offset(o): self.0 = self.0.wrapping_add_signed(offset as i16)`. -/
def Address.offset (a : Address) (d : Nat) : Address :=
  ⟨(a.val + i8ext d) % 65536⟩

/-- `impl ops::Add<u8> for Address: Address(self.0.wrapping_add(rhs as u16))`. -/
def Address.add (a : Address) (i : Nat) : Address :=
  ⟨(a.val + i % 256) % 65536⟩

/-! ## AddressMask (src/lib.rs) -/

structure AddressMask where
  startAddress : Address
  addressMask : Nat
  mirrorMask : Nat
deriving DecidableEq, Repr

/-- `AddressMask::from_block`: `address_mask = !(0xffff >> prefix_bits)` (u16
complement, rendered as xor with 0xffff) and
`mirror_mask = 0xffff >> (prefix_bits + mirror_bits)`. -/
def AddressMask.fromBlock (startAddress : Address) (prefBits mirrorBits : Nat) :
    AddressMask :=
  { startAddress := startAddress
    addressMask := 0xffff ^^^ (0xffff >>> prefBits)
    mirrorMask := 0xffff >>> (prefBits + mirrorBits) }

/-- `AddressMask::remap`: `Some(address & mirror_mask)` when
`address_mask & address == start_address`, else `None`. -/
def AddressMask.remap (m : AddressMask) (address : Address) : Option Address :=
  if m.addressMask &&& address.val = m.startAddress.val then
    some ⟨address.val &&& m.mirrorMask⟩
  else
    none

/-! ## Status flags (src/isa6502.rs, bitflags `StatusFlags: u8`)

The u8 bitset NV1BDIZC is modelled as a record of its eight bits:
bit 0 = C, 1 = Z, 2 = I, 3 = D, 4 = B, 5 = Reserved (field `r`),
6 = V, 7 = N.  `STACK_MASK = 0b1100_1111` covers every bit except B and
Reserved; `Default = 0b0010_0100` is I together with the Reserved bit. -/

structure StatusFlags where
  c : Bool
  z : Bool
  i : Bool
  d : Bool
  b : Bool
  r : Bool
  v : Bool
  n : Bool
deriving DecidableEq, Repr

/-- `StatusFlags::bits()`: the byte value of the flag register. -/
def StatusFlags.bits (p : StatusFlags) : Nat :=
  (cond p.c 1 0) + 2 * cond p.z 1 0 + 4 * cond p.i 1 0 + 8 * cond p.d 1 0 +
    16 * cond p.b 1 0 + 32 * cond p.r 1 0 + 64 * cond p.v 1 0 + 128 * cond p.n 1 0

/-- Bit `k` of a byte, as used by `StatusFlags::from_bits_retain`. -/
def u8bit (k d : Nat) : Bool := d / 2 ^ k % 2 = 1

/-- `set_value_flags(v)`: Z iff the u8 value is zero, N iff `(v as i8) < 0`. -/
def StatusFlags.setValueFlags (p : StatusFlags) (v : Nat) : StatusFlags :=
  { p with z := v % 256 = 0, n := 128 ≤ v % 256 }

/-! ## Claim C3: Address::index versus Address + u8 -/

/-- Claim C3: for every address `a` and 8-bit index `i`, `Address::index`
keeps the high byte and wraps the low byte (`(low(a) + i) mod 256`), while
the `Add<u8>` implementation is a full 16-bit wrapping addition, so its
carry out of the low byte propagates into the high byte. -/
theorem claim_C3 (a : Address) (i : Nat) (hi : i < 256) :
    (a.index i).high = a.high ∧
    (a.index i).low = (a.low + i) % 256 ∧
    (a.add i).val = (a.val + i) % 65536 ∧
    (a.add i).low = (a.low + i) % 256 ∧
    (a.add i).high = (a.high + (a.low + i) / 256) % 256 := by
  have h1 : i % 256 = i := Nat.mod_eq_of_lt hi
  unfold Address.index Address.add Address.new Address.high Address.low
  refine ⟨?_, ?_, ?_, ?_, ?_⟩ <;> simp only [h1] <;> omega

theorem claim_C3_witness :
    (3 : Nat) < 256 ∧
    ((⟨0x12FF⟩ : Address).index 3).high = (⟨0x12FF⟩ : Address).high ∧
    ((⟨0x12FF⟩ : Address).index 3).low = ((⟨0x12FF⟩ : Address).low + 3) % 256 ∧
    ((⟨0x12FF⟩ : Address).add 3).val = (0x12FF + 3) % 65536 ∧
    ((⟨0x12FF⟩ : Address).add 3).low = ((⟨0x12FF⟩ : Address).low + 3) % 256 ∧
    ((⟨0x12FF⟩ : Address).add 3).high =
      ((⟨0x12FF⟩ : Address).high + ((⟨0x12FF⟩ : Address).low + 3) / 256) % 256 := by
  refine ⟨by decide, ?_⟩
  exact claim_C3 ⟨0x12FF⟩ 3 (by decide)

/-! ## Claim C4: AddressMask::from_block and remap -/

/-- Claim C4: `from_block(start, prefix_bits, mirror_bits)` produces
`address_mask = !(0xFFFF >> prefix_bits)` and
`mirror_mask = 0xFFFF >> (prefix_bits + mirror_bits)`; and `remap(a)`
returns `Some` exactly when `a & address_mask == start`, in which case the
returned offset is `a & mirror_mask`. -/
theorem claim_C4 (s : Address) (p m : Nat) (a : Address) (_hpm : p + m ≤ 16) :
    (AddressMask.fromBlock s p m).addressMask = 0xffff ^^^ (0xffff >>> p) ∧
    (AddressMask.fromBlock s p m).mirrorMask = 0xffff >>> (p + m) ∧
    (((AddressMask.fromBlock s p m).remap a).isSome ↔
      (0xffff ^^^ (0xffff >>> p)) &&& a.val = s.val) ∧
    ((0xffff ^^^ (0xffff >>> p)) &&& a.val = s.val →
      (AddressMask.fromBlock s p m).remap a = some ⟨a.val &&& (0xffff >>> (p + m))⟩) := by
  refine ⟨rfl, rfl, ?_, ?_⟩
  · unfold AddressMask.remap AddressMask.fromBlock
    split <;> simp_all
  · intro h
    unfold AddressMask.remap AddressMask.fromBlock
    simp [h]

theorem claim_C4_witness :
    (3 + 2 ≤ 16) ∧
    ((AddressMask.fromBlock ⟨0⟩ 3 2).addressMask = 0xffff ^^^ (0xffff >>> 3) ∧
     (AddressMask.fromBlock ⟨0⟩ 3 2).mirrorMask = 0xffff >>> (3 + 2) ∧
     (((AddressMask.fromBlock ⟨0⟩ 3 2).remap ⟨0x0801⟩).isSome ↔
       (0xffff ^^^ (0xffff >>> 3)) &&& 0x0801 = 0) ∧
     ((0xffff ^^^ (0xffff >>> 3)) &&& 0x0801 = 0 →
       (AddressMask.fromBlock ⟨0⟩ 3 2).remap ⟨0x0801⟩ =
         some ⟨0x0801 &&& (0xffff >>> (3 + 2))⟩)) :=
  ⟨by decide, claim_C4 ⟨0⟩ 3 2 ⟨0x0801⟩ (by decide)⟩

/-! ## CPU state (src/famicom.rs, `struct RP2A03`)

The `timing` queue holds `(address_fn, direction)` pairs; the Rust function
pointers are represented by the inductive types `AddrFn`, `ReadOp` and
`WriteOp` below, interpreted by `applyAddrFn` / `applyRead` / `applyWrite`.
The `(u8, u8)` field `operand` is split into `operand0` / `operand1`. -/

inductive Instr where
  | bit | dey | tay | iny | inx | clc | sec | sei | clv | cld | sed | tya
  | sty | ldy | cpy | cpx | ora | andA | eor | adc | sta | lda | cmp | sbc
  | asl | rol | lsr | ror | txa | txs | stx | tax | tsx | ldx | dex | nopR
deriving DecidableEq, Repr

inductive AddrFn where
  | address
  | addressIndexedX
  | addressInc
  | bufferZeropage
  | bufferAddressIndexedX
  | pc
  | pcInc
  | pcOffsetWrapping
  | stack
  | stackPull
  | stackPush
  | vector (v : Nat)
  | zeropage
deriving DecidableEq, Repr

inductive ReadOp where
  | nop
  | pcl
  | pch
  | pullOperand
  | pullOperandShift
  | decode
  | jmp
  | pcOperand
  | addressOperand
  | pullPcl
  | pullPch
  | plp
  | pla
  | instr (i : Instr)
  | withAcc (i : Instr)
  | branchCheck
  | branchFix
deriving DecidableEq, Repr

inductive WriteOp where
  | php
  | pha
  | pushPch
  | pushPcl
  | winstr (i : Instr)
deriving DecidableEq, Repr

inductive BusDir where
  | read (op : ReadOp)
  | write (op : WriteOp)
deriving DecidableEq, Repr

abbrev MicroStep := AddrFn × BusDir

structure RP2A03 where
  timing : List MicroStep
  pc : Address
  stack : Nat
  addressBuffer : Address
  busAddress : Address
  busData : Nat
  a : Nat
  x : Nat
  y : Nat
  p : StatusFlags
  opcode : Nat
  operand0 : Nat
  operand1 : Nat
  cycles : Nat
deriving DecidableEq, Repr

/-- The decode microstep: `queue_microcode(Self::pc_inc, Read(decode_opcode))`. -/
def decodeStep : MicroStep := (AddrFn.pcInc, BusDir.read ReadOp.decode)

/-! ## Instruction semantics (src/famicom.rs methods)

`Instr.exec cpu data` returns the updated CPU together with the value left
in the `&mut u8` data slot.  Read-category microsteps discard the returned
data; write-category steps and the `with_accumulator` wrapper use it. -/

def RP2A03.setValueFlags (cpu : RP2A03) (v : Nat) : RP2A03 :=
  { cpu with p := cpu.p.setValueFlags v }

def Instr.exec (i : Instr) (cpu : RP2A03) (data : Nat) : RP2A03 × Nat :=
  match i with
  | .bit =>
      -- N and V are loaded from bits 7 and 6 of the operand, Z from A & data.
      ({ cpu with p :=
          { cpu.p with
              n := u8bit 7 data
              v := u8bit 6 data
              z := cpu.a &&& data = 0 } }, data)
  | .dey => ({ cpu.setValueFlags ((cpu.y + 255) % 256) with y := (cpu.y + 255) % 256 }, data)
  | .tay => ({ cpu.setValueFlags cpu.a with y := cpu.a }, data)
  | .iny => ({ cpu.setValueFlags ((cpu.y + 1) % 256) with y := (cpu.y + 1) % 256 }, data)
  | .inx => ({ cpu.setValueFlags ((cpu.x + 1) % 256) with x := (cpu.x + 1) % 256 }, data)
  | .clc => ({ cpu with p := { cpu.p with c := false } }, data)
  | .sec => ({ cpu with p := { cpu.p with c := true } }, data)
  | .sei => ({ cpu with p := { cpu.p with i := true } }, data)
  | .clv => ({ cpu with p := { cpu.p with v := false } }, data)
  | .cld => ({ cpu with p := { cpu.p with d := false } }, data)
  | .sed => ({ cpu with p := { cpu.p with d := true } }, data)
  | .tya => ({ cpu.setValueFlags cpu.y with a := cpu.y }, data)
  | .sty => (cpu, cpu.y)
  | .ldy => ({ cpu.setValueFlags data with y := data }, data)
  | .cpy =>
      ({ cpu with p :=
          { cpu.p with
              c := data ≤ cpu.y
              z := cpu.y = data
              n := 128 ≤ (cpu.y + 256 - data % 256) % 256 } }, data)
  | .cpx =>
      ({ cpu with p :=
          { cpu.p with
              c := data ≤ cpu.x
              z := cpu.x = data
              n := 128 ≤ (cpu.x + 256 - data % 256) % 256 } }, data)
  | .ora => ({ cpu.setValueFlags (cpu.a ||| data) with a := cpu.a ||| data }, data)
  | .andA => ({ cpu.setValueFlags (cpu.a &&& data) with a := cpu.a &&& data }, data)
  | .eor => ({ cpu.setValueFlags (cpu.a ^^^ data) with a := cpu.a ^^^ data }, data)
  | .adc =>
      -- overflowing_add chain: A + data, then + carry bit (p.bits() & 1).
      let r1 := (cpu.a + data) % 256
      let ov1 := 256 ≤ cpu.a + data
      let cin := cpu.p.bits % 2
      let res := (r1 + cin) % 256
      let ov2 := 256 ≤ r1 + cin
      let p1 :=
        { cpu.p with
            c := ov1 ∨ ov2
            v := 0 < (res ^^^ cpu.a) &&& (res ^^^ data) &&& 128 }
      ({ RP2A03.setValueFlags { cpu with p := p1 } res with a := res }, data)
  | .sbc =>
      -- same chain with the one's complement !data.
      let nd := 255 - data % 256
      let r1 := (cpu.a + nd) % 256
      let ov1 := 256 ≤ cpu.a + nd
      let cin := cpu.p.bits % 2
      let res := (r1 + cin) % 256
      let ov2 := 256 ≤ r1 + cin
      let p1 :=
        { cpu.p with
            c := ov1 ∨ ov2
            v := 0 < (res ^^^ cpu.a) &&& (res ^^^ nd) &&& 128 }
      ({ RP2A03.setValueFlags { cpu with p := p1 } res with a := res }, data)
  | .sta => (cpu, cpu.a)
  | .lda => ({ cpu.setValueFlags data with a := data }, data)
  | .cmp =>
      ({ cpu with p :=
          { cpu.p with
              c := data ≤ cpu.a
              z := cpu.a = data
              n := 128 ≤ (cpu.a + 256 - data % 256) % 256 } }, data)
  | .asl =>
      let d1 := data * 2 % 256
      ({ cpu with p := { cpu.p.setValueFlags d1 with c := 128 ≤ data % 256 } }, d1)
  | .rol =>
      let bit0 := cond cpu.p.c 1 0
      let d1 := data * 2 % 256 ||| bit0
      ({ cpu with p := { cpu.p.setValueFlags d1 with c := 128 ≤ data % 256 } }, d1)
  | .lsr =>
      let d1 := data % 256 / 2
      ({ cpu with p := { cpu.p.setValueFlags d1 with c := data % 2 = 1 } }, d1)
  | .ror =>
      let bit7 := cond cpu.p.c 128 0
      let d1 := data % 256 / 2 ||| bit7
      ({ cpu with p := { cpu.p.setValueFlags d1 with c := data % 2 = 1 } }, d1)
  | .txa => (cpu.setValueFlags cpu.x, cpu.x)
  | .txs => ({ cpu with stack := cpu.x }, data)
  | .stx => (cpu, cpu.x)
  | .tax => ({ cpu.setValueFlags data with x := data }, data)
  | .tsx => ({ cpu.setValueFlags cpu.stack with x := cpu.stack }, data)
  | .ldx => ({ cpu.setValueFlags data with x := data }, data)
  | .dex => ({ cpu.setValueFlags ((cpu.x + 255) % 256) with x := (cpu.x + 255) % 256 }, data)
  | .nopR => (cpu, data)

/-! ## Address functions (impl AddressMode for RP2A03, src/famicom.rs) -/

/-- Interpret an address-mode function pointer: returns the bus address and
the possibly mutated CPU (`pc_inc`, `stack_push`, `stack_pull` and the
`buffer` wrappers have register side effects).  `bufferZeropage` and
`bufferAddressIndexedX` are the closures `|cpu| buffer(cpu, CPU::zeropage)`
and `|cpu| buffer(cpu, CPU::address_indexedx)` from the addressing module. -/
def applyAddrFn (af : AddrFn) (cpu : RP2A03) : Address × RP2A03 :=
  match af with
  | .address => (cpu.addressBuffer, cpu)
  | .addressIndexedX => (cpu.addressBuffer.index cpu.x, cpu)
  | .addressInc => (cpu.addressBuffer.index 1, cpu)
  | .bufferZeropage =>
      let a : Address := ⟨cpu.operand0 % 256⟩
      (a, { cpu with addressBuffer := a })
  | .bufferAddressIndexedX =>
      let a := cpu.addressBuffer.index cpu.x
      (a, { cpu with addressBuffer := a })
  | .pc => (cpu.pc, cpu)
  | .pcInc => (cpu.pc, { cpu with pc := cpu.pc.increment })
  | .pcOffsetWrapping =>
      -- Address((pc.high << 8) | pc.low.wrapping_add_signed(operand.0 as i8)):
      -- a signed wrapping add on the low byte is an unsigned add mod 256.
      (Address.new cpu.pc.high (cpu.pc.low + cpu.operand0), cpu)
  | .stack => (⟨0x100 + cpu.stack % 256⟩, cpu)
  | .stackPull =>
      let s := (cpu.stack + 1) % 256
      (⟨0x100 + s⟩, { cpu with stack := s })
  | .stackPush =>
      (⟨0x100 + cpu.stack % 256⟩, { cpu with stack := (cpu.stack + 255) % 256 })
  | .vector v => (⟨0xFF00 + v % 256⟩, cpu)
  | .zeropage => (⟨cpu.operand0 % 256⟩, cpu)

/-! ## Opcode decoding (RP2A03::decode_opcode / decode_addressing / decode_branch)

`decodeTemplate op taken` is the microstep list the decoder enqueues for
opcode `op` (`taken` is the already-evaluated branch condition for the
conditional-branch opcodes).  Arms of the source that panic
(`unimplemented!`-ed columns of `decode_addressing`, `todo!()` bodies of
addressing-mode impls, and addressing-mode trait impls that do not exist in
the live inline module of src/isa6502.rs) yield `none`. -/

inductive IOCat where
  | rd
  | rw
  | wr
deriving DecidableEq, Repr

def immediateTemplate (cat : IOCat) (i : Instr) : Option (List MicroStep) :=
  match cat with
  | .rd => some [(.pcInc, .read (.instr i)), decodeStep]
  | _ => none

def indirectXTemplate (cat : IOCat) (i : Instr) : Option (List MicroStep) :=
  match cat with
  | .rd => some [(.pcInc, .read .pullOperandShift), (.bufferZeropage, .read .nop),
                 (.bufferAddressIndexedX, .read .pullOperandShift),
                 (.addressInc, .read .addressOperand),
                 (.address, .read (.instr i)), decodeStep]
  | .wr => some [(.pcInc, .read .pullOperandShift), (.bufferZeropage, .read .nop),
                 (.bufferAddressIndexedX, .read .pullOperandShift),
                 (.addressInc, .read .addressOperand),
                 (.address, .write (.winstr i)), decodeStep]
  | .rw => none

def zeroPageTemplate (cat : IOCat) (i : Instr) : Option (List MicroStep) :=
  match cat with
  | .rd => some [(.pcInc, .read .pullOperandShift), (.zeropage, .read (.instr i)),
                 decodeStep]
  | .wr => some [(.pcInc, .read .pullOperandShift), (.zeropage, .write (.winstr i)),
                 decodeStep]
  | .rw => none

def accumulatorTemplate (i : Instr) : Option (List MicroStep) :=
  some [(.pc, .read (.withAcc i)), decodeStep]

def absoluteTemplate (cat : IOCat) (i : Instr) : Option (List MicroStep) :=
  match cat with
  | .rd => some [(.pcInc, .read .pullOperandShift), (.pcInc, .read .addressOperand),
                 (.address, .read (.instr i)), decodeStep]
  | .wr => some [(.pcInc, .read .pullOperandShift), (.pcInc, .read .addressOperand),
                 (.address, .write (.winstr i)), decodeStep]
  | .rw => none

def impliedTemplate (cat : IOCat) (i : Instr) : Option (List MicroStep) :=
  match cat with
  | .rd => some [(.pc, .read (.instr i)), decodeStep]
  | _ => none

/-- `RP2A03::decode_addressing`, dispatching on the column bits `op & 0x1F`. -/
def decodeAddressing (cat : IOCat) (i : Instr) (op : Nat) : Option (List MicroStep) :=
  let col := op &&& 0x1F
  if col = 0x00 ∨ col = 0x02 then immediateTemplate cat i
  else if col = 0x01 ∨ col = 0x03 then indirectXTemplate cat i
  else if 0x04 ≤ col ∧ col ≤ 0x07 then zeroPageTemplate cat i
  else if col = 0x08 ∨ col = 0x0A then accumulatorTemplate i
  else if col = 0x09 ∨ col = 0x0B then immediateTemplate cat i
  else if 0x0C ≤ col ∧ col ≤ 0x0F then absoluteTemplate cat i
  else if col = 0x18 ∨ col = 0x1A then impliedTemplate cat i
  else none

/-- `RP2A03::decode_stack` (opcodes 0x08 PHP / 0x28 PLP / 0x48 PHA / 0x68 PLA). -/
def stackTemplate (op : Nat) : Option (List MicroStep) :=
  if op = 0x08 then
    some [(.pc, .read .nop), (.stackPush, .write .php), decodeStep]
  else if op = 0x28 then
    some [(.pc, .read .nop), (.stack, .read .nop), (.stackPull, .read .plp), decodeStep]
  else if op = 0x48 then
    some [(.pc, .read .nop), (.stackPush, .write .pha), decodeStep]
  else if op = 0x68 then
    some [(.pc, .read .nop), (.stack, .read .nop), (.stackPull, .read .pla), decodeStep]
  else none

/-- `RP2A03::queue_jsr`. -/
def jsrTemplate : List MicroStep :=
  [(.pcInc, .read .pullOperand), (.stack, .read .nop),
   (.stackPush, .write .pushPch), (.stackPush, .write .pushPcl),
   (.pcInc, .read .pcOperand), decodeStep]

/-- `RP2A03::queue_rti`. -/
def rtiTemplate : List MicroStep :=
  [(.pcInc, .read .nop), (.stack, .read .nop), (.stackPull, .read .plp),
   (.stackPull, .read .pullPcl), (.stackPull, .read .pullPch), decodeStep]

/-- `RP2A03::queue_rts`. -/
def rtsTemplate : List MicroStep :=
  [(.pcInc, .read .nop), (.stack, .read .nop), (.stackPull, .read .pullPcl),
   (.stackPull, .read .pullPch), (.pcInc, .read .nop), decodeStep]

/-- `RP2A03::queue_jmp`. -/
def jmpTemplate : List MicroStep :=
  [(.pcInc, .read .pullOperand), (.pcInc, .read .jmp), decodeStep]

/-- The non-branch part of `RP2A03::decode_opcode`: the `match (high, row,
column, block)` arms in source order; the final `_ => unimplemented!` arm
and every panicking addressing arm give `none`. -/
def decodeMain (op : Nat) : Option (List MicroStep) :=
  let high := 0 < op &&& 0x80
  let row := (op &&& 0xE0) >>> 4
  let col := op &&& 0x1F
  let block := op &&& 0x03
  if row = 0x2 ∧ col = 0x0 then some jsrTemplate
  else if row = 0x4 ∧ col = 0x0 then some rtiTemplate
  else if row = 0x6 ∧ col = 0x0 then some rtsTemplate
  else if row = 0x2 ∧ col = 0x4 then decodeAddressing .rd .bit op
  else if ¬high ∧ col = 0x8 then stackTemplate op
  else if row = 0x8 ∧ col = 0x8 then decodeAddressing .rd .dey op
  else if row = 0xA ∧ col = 0x8 then decodeAddressing .rd .tay op
  else if row = 0xC ∧ col = 0x8 then decodeAddressing .rd .iny op
  else if row = 0xE ∧ col = 0x8 then decodeAddressing .rd .inx op
  else if row = 0x4 ∧ col = 0xC then some jmpTemplate
  else if row = 0x0 ∧ col = 0x18 then decodeAddressing .rd .clc op
  else if row = 0x2 ∧ col = 0x18 then decodeAddressing .rd .sec op
  else if row = 0x6 ∧ col = 0x18 then decodeAddressing .rd .sei op
  else if row = 0xA ∧ col = 0x18 then decodeAddressing .rd .clv op
  else if row = 0xC ∧ col = 0x18 then decodeAddressing .rd .cld op
  else if row = 0xE ∧ col = 0x18 then decodeAddressing .rd .sed op
  else if row = 0x8 ∧ col = 0x18 then decodeAddressing .rd .tya op
  else if row = 0x8 ∧ block = 0 then decodeAddressing .wr .sty op
  else if row = 0xA ∧ block = 0 then decodeAddressing .rd .ldy op
  else if row = 0xC ∧ block = 0 then decodeAddressing .rd .cpy op
  else if row = 0xE ∧ block = 0 then decodeAddressing .rd .cpx op
  else if row = 0x0 ∧ block = 1 then decodeAddressing .rd .ora op
  else if row = 0x2 ∧ block = 1 then decodeAddressing .rd .andA op
  else if row = 0x4 ∧ block = 1 then decodeAddressing .rd .eor op
  else if row = 0x6 ∧ block = 1 then decodeAddressing .rd .adc op
  else if row = 0x8 ∧ block = 1 then decodeAddressing .wr .sta op
  else if row = 0xA ∧ block = 1 then decodeAddressing .rd .lda op
  else if row = 0xC ∧ block = 1 then decodeAddressing .rd .cmp op
  else if row = 0xE ∧ block = 1 then decodeAddressing .rd .sbc op
  else if row = 0x0 ∧ block = 2 then decodeAddressing .rw .asl op
  else if row = 0x2 ∧ block = 2 then decodeAddressing .rw .rol op
  else if row = 0x4 ∧ block = 2 then decodeAddressing .rw .lsr op
  else if row = 0x6 ∧ block = 2 then decodeAddressing .rw .ror op
  else if row = 0x8 ∧ col = 0xA then decodeAddressing .rd .txa op
  else if row = 0x8 ∧ col = 0x1A then decodeAddressing .rd .txs op
  else if row = 0x8 ∧ block = 2 then decodeAddressing .wr .stx op
  else if row = 0xA ∧ col = 0xA then decodeAddressing .rd .tax op
  else if row = 0xA ∧ col = 0x1A then decodeAddressing .rd .tsx op
  else if row = 0xA ∧ block = 2 then decodeAddressing .rd .ldx op
  else if row = 0xC ∧ col = 0xA then decodeAddressing .rd .dex op
  else if row = 0xE ∧ col = 0xA then decodeAddressing .rd .nopR op
  else none

/-- Body enqueued by `RP2A03::decode_branch` once the branch condition has
been evaluated. -/
def branchBody (taken : Bool) : List MicroStep :=
  if taken then
    [(.pcInc, .read .pullOperand), (.pc, .read .branchCheck), decodeStep]
  else
    [(.pcInc, .read .pullOperand), decodeStep]

/-- The branch condition of `RP2A03::decode_branch` (flag and polarity from
`op & 0xE0`); only consulted for the eight conditional-branch opcodes. -/
def branchTaken (op : Nat) (p : StatusFlags) : Bool :=
  match op with
  | 0x10 => !p.n
  | 0x30 => p.n
  | 0x50 => !p.v
  | 0x70 => p.v
  | 0x90 => !p.c
  | 0xB0 => p.c
  | 0xD0 => !p.z
  | 0xF0 => p.z
  | _ => false

/-- The full decoder template for an opcode byte. -/
def decodeTemplate (op : Nat) (taken : Bool) : Option (List MicroStep) :=
  if op &&& 0x1F = 0x10 then
    if op = 0x10 ∨ op = 0x30 ∨ op = 0x50 ∨ op = 0x70 ∨
        op = 0x90 ∨ op = 0xB0 ∨ op = 0xD0 ∨ op = 0xF0 then
      some (branchBody taken)
    else
      none
  else
    decodeMain op

/-- `RP2A03::decode_opcode`: record the opcode and enqueue its template;
`none` models the panicking arms. -/
def decodeOpcode (cpu : RP2A03) (op : Nat) : Option RP2A03 :=
  (decodeTemplate op (branchTaken op cpu.p)).map fun l =>
    { cpu with opcode := op, timing := cpu.timing ++ l }

/-! ## Read / write microstep callbacks -/

/-- `RP2A03::plp`: remove `STACK_MASK` from P, then insert
`STACK_MASK ∩ from_bits_retain(data)`; B and Reserved keep their values. -/
def plpApply (p : StatusFlags) (data : Nat) : StatusFlags :=
  { c := u8bit 0 data, z := u8bit 1 data, i := u8bit 2 data, d := u8bit 3 data,
    b := p.b, r := p.r, v := u8bit 6 data, n := u8bit 7 data }

/-- Interpret a post-read callback; `decode` is the only fallible one. -/
def applyRead (op : ReadOp) (cpu : RP2A03) (data : Nat) : Option RP2A03 :=
  match op with
  | .nop => some cpu
  | .pcl => some { cpu with pc := cpu.pc.setLow data }
  | .pch => some { cpu with pc := cpu.pc.setHigh data }
  | .pullOperand => some { cpu with operand0 := data }
  | .pullOperandShift => some { cpu with operand1 := cpu.operand0, operand0 := data }
  | .decode => decodeOpcode cpu data
  | .jmp => some { cpu with pc := Address.new data cpu.operand0 }
  | .pcOperand => some { cpu with pc := Address.new data cpu.operand0 }
  | .addressOperand => some { cpu with addressBuffer := Address.new data cpu.operand0 }
  | .pullPcl => some { cpu with pc := cpu.pc.setLow data }
  | .pullPch => some { cpu with pc := cpu.pc.setHigh data }
  | .plp => some { cpu with p := plpApply cpu.p data }
  | .pla => some { cpu.setValueFlags data with a := data }
  | .instr i => some (Instr.exec i cpu data).1
  | .withAcc i =>
      -- with_accumulator: data = A; instruction(data); A = data.
      let (cpu1, dataOut) := Instr.exec i cpu cpu.a
      some { cpu1 with a := dataOut }
  | .branchCheck =>
      -- decode_branch's taken-path closure: compute pc + sign_extend(operand);
      -- on a page cross, push the fix-up microstep instead of updating PC.
      let pcNew := cpu.pc.offset cpu.operand0
      if cpu.pc.high ≠ pcNew.high then
        some { cpu with timing := (.pcOffsetWrapping, .read .branchFix) :: cpu.timing }
      else
        some { cpu with pc := pcNew }
  | .branchFix => some { cpu with pc := cpu.pc.offset cpu.operand0 }

/-- Interpret a pre-write callback, producing the byte for the bus.
`php` writes `(p | !STACK_MASK).bits()` (B and Reserved forced to 1),
as in the PHP write instruction. -/
def applyWrite (op : WriteOp) (cpu : RP2A03) : RP2A03 × Nat :=
  match op with
  | .php => (cpu, StatusFlags.bits { cpu.p with b := true, r := true })
  | .pha => (cpu, cpu.a)
  | .pushPch => (cpu, cpu.pc.high)
  | .pushPcl => (cpu, cpu.pc.low)
  | .winstr i => Instr.exec i cpu 0

/-! ## The cycle engine (Cpu::cycle for RP2A03) -/

/-- The bus, as a byte-valued memory function (devices are exercised
separately in claims C4 and C10). -/
def Mem : Type := Nat → Nat

def writeMem (mem : Mem) (addr data : Nat) : Mem :=
  fun x => if x = addr then data % 256 else mem x

/-- One call of `RP2A03::cycle`: bump the cycle counter, pop the front
microstep (`none` when the queue is empty, modelling the `unwrap`), run the
address function and the bus access, and invoke the callback.  For writes
the data callback runs before the address function, as in the source. -/
def stepCycle (mem : Mem) (cpu : RP2A03) : Option (RP2A03 × Mem) :=
  match cpu.timing with
  | [] => none
  | (af, dir) :: rest =>
    let cpu0 : RP2A03 := { cpu with timing := rest, cycles := cpu.cycles + 1 }
    match dir with
    | .read op =>
        let r := applyAddrFn af cpu0
        let data := mem r.1.val % 256
        (applyRead op { r.2 with busData := data } data).map (fun c => (c, mem))
    | .write op =>
        let w := applyWrite op cpu0
        let r := applyAddrFn af { w.1 with busData := w.2 }
        some (r.2, writeMem mem r.1.val w.2)

/-- Run `n` bus cycles. -/
def runN : Nat → Mem → RP2A03 → Option (RP2A03 × Mem)
  | 0, mem, cpu => some (cpu, mem)
  | n + 1, mem, cpu =>
    match stepCycle mem cpu with
    | none => none
    | some (cpu1, mem1) => runN n mem1 cpu1

/-- `RP2A03::reset`: stack to 0, `Default` flags set, queue cleared and
pre-loaded with the 7 reset cycles followed by the decode step. -/
def resetSteps : List MicroStep :=
  [(.pcInc, .read .nop), (.pcInc, .read .nop),
   (.stackPush, .read .nop), (.stackPush, .read .nop), (.stackPush, .read .nop),
   (.vector 0xFC, .read .pcl), (.vector 0xFD, .read .pch), decodeStep]

def RP2A03.reset (cpu : RP2A03) : RP2A03 :=
  { cpu with
      stack := 0
      p := { cpu.p with i := true, r := true }
      timing := resetSteps }

/-- `RP2A03::new()`. -/
def RP2A03.new : RP2A03 :=
  RP2A03.reset
    { timing := [], pc := ⟨0⟩, stack := 0, addressBuffer := ⟨0⟩, busAddress := ⟨0⟩,
      busData := 0, a := 0, x := 0, y := 0,
      p := { c := false, z := false, i := true, d := false,
             b := false, r := true, v := false, n := false },
      opcode := 0, operand0 := 0, operand1 := 0, cycles := 0 }

/-! ## Claim C5: ADC (binary mode) -/

lemma bits_mod_two (p : StatusFlags) : p.bits % 2 = cond p.c 1 0 := by
  unfold StatusFlags.bits
  cases p.c <;> cases p.z <;> cases p.i <;> cases p.d <;>
    cases p.b <;> cases p.r <;> cases p.v <;> cases p.n <;> rfl

/-- A concrete CPU state with A = 0x50 and C clear, for the ADC scenario. -/
def adcDemoCpu : RP2A03 := { RP2A03.new with a := 0x50 }

/-- Claim C5: ADC computes `A' = (A + d + C) mod 256`, sets the carry flag
iff the unsigned sum exceeds 255, the overflow flag iff
`(A' xor A) & (A' xor d) & 0x80` is non-zero, Z iff `A' = 0`, N iff bit 7 of
`A'`; in particular A=0x50, d=0x50, C=0 gives A'=0xA0, C=0, V=1, N=1, Z=0. -/
theorem claim_C5 (cpu : RP2A03) (d : Nat) (ha : cpu.a < 256) (hd : d < 256) :
    ((Instr.exec .adc cpu d).1.a = (cpu.a + d + cond cpu.p.c 1 0) % 256 ∧
     ((Instr.exec .adc cpu d).1.p.c = true ↔ 255 < cpu.a + d + cond cpu.p.c 1 0) ∧
     ((Instr.exec .adc cpu d).1.p.v = true ↔
       0 < ((cpu.a + d + cond cpu.p.c 1 0) % 256 ^^^ cpu.a) &&&
           ((cpu.a + d + cond cpu.p.c 1 0) % 256 ^^^ d) &&& 128) ∧
     ((Instr.exec .adc cpu d).1.p.z = true ↔ (cpu.a + d + cond cpu.p.c 1 0) % 256 = 0) ∧
     ((Instr.exec .adc cpu d).1.p.n = true ↔ 128 ≤ (cpu.a + d + cond cpu.p.c 1 0) % 256)) ∧
    ((Instr.exec .adc adcDemoCpu 0x50).1.a = 0xA0 ∧
     (Instr.exec .adc adcDemoCpu 0x50).1.p.c = false ∧
     (Instr.exec .adc adcDemoCpu 0x50).1.p.v = true ∧
     (Instr.exec .adc adcDemoCpu 0x50).1.p.n = true ∧
     (Instr.exec .adc adcDemoCpu 0x50).1.p.z = false) := by
  refine ⟨?_, by decide⟩
  have hcin := bits_mod_two cpu.p
  simp only [Instr.exec, RP2A03.setValueFlags, StatusFlags.setValueFlags, hcin]
  have hmod : ((cpu.a + d) % 256 + cond cpu.p.c 1 0) % 256 =
      (cpu.a + d + cond cpu.p.c 1 0) % 256 := by
    cases cpu.p.c <;> simp
  rw [hmod]
  refine ⟨rfl, ?_, ?_, ?_, ?_⟩
  · simp only [decide_eq_true_eq]
    cases cpu.p.c <;> simp <;> omega
  · simp [decide_eq_true_eq]
  · simp only [decide_eq_true_eq]
    omega
  · simp only [decide_eq_true_eq]
    omega

theorem claim_C5_witness :
    adcDemoCpu.a < 256 ∧ (0x50 : Nat) < 256 ∧
    (Instr.exec .adc adcDemoCpu 0x50).1.a =
      (adcDemoCpu.a + 0x50 + cond adcDemoCpu.p.c 1 0) % 256 ∧
    ((Instr.exec .adc adcDemoCpu 0x50).1.p.c = true ↔
      255 < adcDemoCpu.a + 0x50 + cond adcDemoCpu.p.c 1 0) := by
  have h := claim_C5 adcDemoCpu 0x50 (by decide) (by decide)
  exact ⟨by decide, by decide, h.1.1, h.1.2.1⟩

/-! ## Claim C6: PLP / RTI preserve B and Reserved -/

/-- Claim C6: the pull applied by PLP (and by the P-pull microstep of RTI)
keeps bits 4 (B) and 5 (Reserved) of P at their pre-pull values and takes
the other six flags from the corresponding bits of the pulled byte; the PLP
and RTI microstep sequences both use this callback on a stack-pull cycle. -/
theorem claim_C6 (p : StatusFlags) (d : Nat) :
    (plpApply p d).b = p.b ∧
    (plpApply p d).r = p.r ∧
    (plpApply p d).c = u8bit 0 d ∧
    (plpApply p d).z = u8bit 1 d ∧
    (plpApply p d).i = u8bit 2 d ∧
    (plpApply p d).d = u8bit 3 d ∧
    (plpApply p d).v = u8bit 6 d ∧
    (plpApply p d).n = u8bit 7 d ∧
    (∀ (cpu : RP2A03) (data : Nat),
      applyRead .plp cpu data = some { cpu with p := plpApply cpu.p data }) ∧
    rtiTemplate.get? 2 = some (.stackPull, .read .plp) ∧
    stackTemplate 0x28 =
      some [(.pc, .read .nop), (.stack, .read .nop), (.stackPull, .read .plp),
            decodeStep] := by
  exact ⟨rfl, rfl, rfl, rfl, rfl, rfl, rfl, rfl, fun _ _ => rfl, rfl, rfl⟩

/-! ## Claim C9: the reset sequence -/

/-- A microstep whose bus direction is a read (no bus write). -/
def isReadStep (s : MicroStep) : Bool :=
  match s.2 with
  | .read _ => true
  | .write _ => false

set_option maxRecDepth 8000 in
/-- Claim C9: reset pre-loads exactly 7 bus cycles before the next decode:
2 dummy PC fetches, 3 dummy stack pushes executed as reads (S is
decremented each time, and no bus write happens anywhere), then reads of
$FFFC into PC-low and $FFFD into PC-high, followed by the decode step.
Running the 7 cycles on any memory leaves the memory unchanged, ends with
S = 0xFD, PC loaded from the vector, and only the decode step queued. -/
theorem claim_C9 (cpu : RP2A03) (mem : Mem) :
    cpu.reset.timing =
      [(.pcInc, .read .nop), (.pcInc, .read .nop),
       (.stackPush, .read .nop), (.stackPush, .read .nop), (.stackPush, .read .nop),
       (.vector 0xFC, .read .pcl), (.vector 0xFD, .read .pch), decodeStep] ∧
    cpu.reset.timing.all isReadStep = true ∧
    (runN 3 mem cpu.reset).map (fun s => s.1.stack) = some 255 ∧
    (runN 4 mem cpu.reset).map (fun s => s.1.stack) = some 254 ∧
    (runN 5 mem cpu.reset).map (fun s => s.1.stack) = some 253 ∧
    (runN 7 mem cpu.reset).map (fun s => s.1.stack) = some 253 ∧
    (runN 7 mem cpu.reset).map (fun s => s.1.pc) =
      some (Address.new (mem 0xFFFD) (mem 0xFFFC)) ∧
    (runN 7 mem cpu.reset).map (fun s => s.1.timing) = some [decodeStep] ∧
    (runN 7 mem cpu.reset).map (fun s => s.2) = some mem ∧
    (runN 7 mem cpu.reset).map (fun s => s.1.cycles) = some (cpu.cycles + 7) := by
  refine ⟨rfl, rfl, ?_, ?_, ?_, ?_, ?_, ?_, ?_, ?_⟩ <;>
    · simp only [RP2A03.reset, resetSteps, decodeStep, runN, stepCycle, applyAddrFn,
        applyRead, Address.increment, Address.setLow, Address.setHigh, Address.new,
        Option.map_some']
      try rfl
      try { norm_num [Option.some.injEq, Address.mk.injEq]; omega }

/-! ## Claim C2: the queue always ends with a decode step and never drains -/

/-- The invariant: the microcode queue ends with the decode step (so it is in
particular non-empty at the cycle boundary). -/
def EndsWithDecode (cpu : RP2A03) : Prop :=
  cpu.timing.getLast? = some decodeStep

lemma getLast?_cons_of_ne_nil {A : Type} (a : A) (l : List A) (h : l ≠ []) :
    (a :: l).getLast? = l.getLast? := by
  cases l with
  | nil => exact absurd rfl h
  | cons b t => rfl

lemma getLast?_append_right {A : Type} (l1 l2 : List A) (h : l2 ≠ []) :
    (l1 ++ l2).getLast? = l2.getLast? := by
  induction l1 with
  | nil => rfl
  | cons a t ih =>
      have ht : t ++ l2 ≠ [] := by
        cases t <;> simp [h]
      rw [List.cons_append, getLast?_cons_of_ne_nil a (t ++ l2) ht, ih]

lemma applyAddrFn_timing (af : AddrFn) (cpu : RP2A03) :
    (applyAddrFn af cpu).2.timing = cpu.timing := by
  cases af <;> rfl

lemma exec_timing (i : Instr) (cpu : RP2A03) (d : Nat) :
    (Instr.exec i cpu d).1.timing = cpu.timing := by
  cases i <;> rfl

lemma applyWrite_fst_timing (op : WriteOp) (cpu : RP2A03) :
    (applyWrite op cpu).1.timing = cpu.timing := by
  cases op with
  | winstr i => exact exec_timing i cpu 0
  | _ => rfl

/-- The fix-up microstep pushed to the queue front by a page-crossing branch. -/
def branchFixStep : MicroStep := (.pcOffsetWrapping, .read .branchFix)

lemma applyRead_nonDecode (op : ReadOp) (cpu : RP2A03) (d : Nat)
    (h : op ≠ ReadOp.decode) :
    ∃ cpu1, applyRead op cpu d = some cpu1 ∧
      (cpu1.timing = cpu.timing ∨
        (op = ReadOp.branchCheck ∧ cpu1.timing = branchFixStep :: cpu.timing)) := by
  cases op with
  | decode => exact absurd rfl h
  | instr i =>
      exact ⟨_, rfl, Or.inl (exec_timing i cpu d)⟩
  | withAcc i =>
      cases hx : Instr.exec i cpu cpu.a with
      | mk c1 d1 =>
          refine ⟨{ c1 with a := d1 }, ?_, Or.inl ?_⟩
          · simp only [applyRead, hx]
          · have ht := exec_timing i cpu cpu.a
            rw [hx] at ht
            exact ht
  | branchCheck =>
      simp only [applyRead]
      by_cases hpg : cpu.pc.high ≠ (cpu.pc.offset cpu.operand0).high
      · rw [if_pos hpg]
        exact ⟨_, rfl, Or.inr (by simp [branchFixStep])⟩
      · rw [if_neg hpg]
        exact ⟨_, rfl, Or.inl rfl⟩
  | _ => exact ⟨_, rfl, Or.inl rfl⟩

/-- Decidable check that a decoded template ends with the decode step. -/
def lastIsDecodeCheck (op : Nat) (b : Bool) : Bool :=
  match decodeTemplate op b with
  | some l => l.getLast? == some decodeStep
  | none => true

set_option maxRecDepth 100000 in
lemma lastIsDecodeCheck_all : ∀ op < 256, lastIsDecodeCheck op true = true ∧
    lastIsDecodeCheck op false = true := by decide

lemma decodeTemplate_getLast (op : Nat) (b : Bool) (l : List MicroStep)
    (hop : op < 256) (h : decodeTemplate op b = some l) :
    l.getLast? = some decodeStep := by
  have hc := lastIsDecodeCheck_all op hop
  have hcb : lastIsDecodeCheck op b = true := by
    cases b
    · exact hc.2
    · exact hc.1
  simp only [lastIsDecodeCheck, h, beq_iff_eq] at hcb
  exact hcb

lemma decodeOpcode_timing (cpu : RP2A03) (op : Nat) (cpu1 : RP2A03)
    (h : decodeOpcode cpu op = some cpu1) :
    ∃ l, decodeTemplate op (branchTaken op cpu.p) = some l ∧
      cpu1.timing = cpu.timing ++ l := by
  unfold decodeOpcode at h
  cases htl : decodeTemplate op (branchTaken op cpu.p) with
  | none => rw [htl] at h; exact absurd h (by simp)
  | some l =>
      rw [htl] at h
      simp only [Option.map_some', Option.some.injEq] at h
      exact ⟨l, rfl, by rw [← h]⟩

/-- Claim C2: reset establishes the ends-with-decode invariant; the invariant
implies the queue is non-empty, so the front pop in `cycle()` cannot fail;
and every successful cycle preserves the invariant (each template re-enqueued
by the decode step again ends with a decode step). -/
theorem claim_C2 :
    (∀ cpu : RP2A03, EndsWithDecode cpu.reset) ∧
    (∀ cpu : RP2A03, EndsWithDecode cpu → cpu.timing ≠ []) ∧
    (∀ (mem : Mem) (cpu cpu1 : RP2A03) (mem1 : Mem),
      EndsWithDecode cpu → stepCycle mem cpu = some (cpu1, mem1) →
      EndsWithDecode cpu1) := by
  refine ⟨fun cpu => rfl, ?_, ?_⟩
  · intro cpu h hnil
    rw [EndsWithDecode, hnil] at h
    exact absurd h (by simp)
  · intro mem cpu cpu1 mem1 hE hstep
    cases htm : cpu.timing with
    | nil =>
        rw [EndsWithDecode, htm] at hE
        exact absurd hE (by simp)
    | cons s rest =>
        obtain ⟨af, dir⟩ := s
        rw [EndsWithDecode, htm] at hE
        simp only [stepCycle, htm] at hstep
        cases dir with
        | write op =>
            -- a write step is never the decode step, so rest is non-empty
            have hrest : rest ≠ [] := by
              intro hn
              rw [hn] at hE
              have hE2 : ((af, BusDir.write op) : MicroStep) = decodeStep := by
                simpa using hE
              have h2 := congrArg Prod.snd hE2
              simp [decodeStep] at h2
            rw [getLast?_cons_of_ne_nil _ rest hrest] at hE
            simp only [Option.some.injEq] at hstep
            injection hstep with h1 h2
            rw [EndsWithDecode, ← h1]
            simp only [applyAddrFn_timing, applyWrite_fst_timing]
            exact hE
        | read op =>
            rw [Option.map_eq_some'] at hstep
            obtain ⟨c2, har, heq⟩ := hstep
            injection heq with h1 h2
            subst h1
            by_cases hdec : op = ReadOp.decode
            · subst hdec
              simp only [applyRead] at har
              obtain ⟨l, htl, htiming⟩ := decodeOpcode_timing _ _ _ har
              have hlast := decodeTemplate_getLast _ _ _
                (Nat.mod_lt _ (by norm_num)) htl
              have hlnil : l ≠ [] := by
                intro hn
                rw [hn] at hlast
                exact absurd hlast (by simp)
              rw [EndsWithDecode, htiming]
              simp only [applyAddrFn_timing]
              rw [getLast?_append_right _ _ hlnil]
              exact hlast
            · obtain ⟨c3, har2, hor⟩ := applyRead_nonDecode op _ _ hdec
              rw [har2] at har
              injection har with h3
              subst h3
              have hrest : rest ≠ [] := by
                intro hn
                rw [hn] at hE
                have hE2 : ((af, BusDir.read op) : MicroStep) = decodeStep := by
                  simpa using hE
                have h4 := congrArg Prod.snd hE2
                simp only [decodeStep, BusDir.read.injEq] at h4
                exact hdec h4
              rw [getLast?_cons_of_ne_nil _ rest hrest] at hE
              rw [EndsWithDecode]
              rcases hor with h5 | ⟨hbc, h5⟩ <;> rw [h5] <;>
                simp only [applyAddrFn_timing]
              · exact hE
              · rw [getLast?_cons_of_ne_nil _ _ hrest]
                exact hE

/-- A memory image that answers NOP (0xEA) everywhere, for concrete runs. -/
def nopMem : Mem := fun _ => 0xEA

/-- The CPU state after the first post-reset cycle on `nopMem`. -/
def demoC2cpu : RP2A03 :=
  ((stepCycle nopMem RP2A03.new).getD (RP2A03.new, nopMem)).1

theorem claim_C2_witness :
    EndsWithDecode RP2A03.new ∧ RP2A03.new.timing ≠ [] ∧ EndsWithDecode demoC2cpu := by
  have h1 : EndsWithDecode RP2A03.new := claim_C2.1 _
  refine ⟨h1, claim_C2.2.1 RP2A03.new h1, ?_⟩
  exact claim_C2.2.2 nopMem RP2A03.new demoC2cpu
    ((stepCycle nopMem RP2A03.new).getD (RP2A03.new, nopMem)).2 h1 rfl

/-! ## Claim C1: opcode coverage of the decoder

The claim states that every opcode byte decodes to a complete microstep
sequence.  That is false for this source: `decode_addressing` has
`unimplemented!` arms (e.g. column 0x1D, hit by opcode 0xBD, LDA abs,X),
`decode_opcode` has an `unimplemented!` fallthrough (e.g. opcode 0x00, BRK),
and several addressing-mode impls are `todo!()`.  The amended claim: exactly
the opcodes in `coveredOps` decode, and for each of them the enqueued
microsteps run to completion (the next decode step reaches the queue front)
with no unimplemented step. -/

/-- The opcodes for which every decoder arm is implemented. -/
def coveredOps : List Nat :=
  [0x01, 0x05, 0x08, 0x09, 0x0A, 0x0D, 0x10, 0x18,
   0x20, 0x21, 0x24, 0x25, 0x28, 0x29, 0x2A, 0x2D, 0x30, 0x38,
   0x40, 0x41, 0x45, 0x48, 0x49, 0x4A, 0x4C, 0x4D, 0x50,
   0x60, 0x61, 0x65, 0x68, 0x69, 0x6A, 0x6D, 0x70, 0x78,
   0x81, 0x84, 0x85, 0x86, 0x88, 0x8A, 0x8C, 0x8D, 0x8E, 0x90, 0x98, 0x9A,
   0xA0, 0xA1, 0xA2, 0xA4, 0xA5, 0xA6, 0xA8, 0xA9, 0xAA, 0xAC, 0xAD, 0xAE,
   0xB0, 0xB8, 0xBA,
   0xC0, 0xC1, 0xC4, 0xC5, 0xC8, 0xC9, 0xCA, 0xCC, 0xCD, 0xD0, 0xD8,
   0xE0, 0xE1, 0xE4, 0xE5, 0xE8, 0xE9, 0xEA, 0xEC, 0xED, 0xF0, 0xF8]

/-- A queue is good when its only decode-reading step is the final decode
step: running it executes every instruction-body microstep and then leaves
the decode step at the front. -/
def goodQueue : List MicroStep → Bool
  | [] => false
  | [s] => s == decodeStep
  | s :: rest => !(s.2 == BusDir.read ReadOp.decode) && goodQueue rest

/-- Fuel bound for running a queue: a branch-check step may push one extra
microstep, so it weighs 2. -/
def stepWeight (s : MicroStep) : Nat :=
  if s.2 == BusDir.read ReadOp.branchCheck then 2 else 1

def queuePot (l : List MicroStep) : Nat := (l.map stepWeight).sum

/-- Run cycles until the decode step is at the queue front (true), failing
on an empty queue, a failing step, or fuel exhaustion. -/
def completes : Nat → Mem → RP2A03 → Bool
  | 0, _, _ => false
  | fuel + 1, mem, cpu =>
    match cpu.timing with
    | [] => false
    | s :: _ =>
      if s = decodeStep then true
      else
        match stepCycle mem cpu with
        | none => false
        | some (cpu1, mem1) => completes fuel mem1 cpu1

lemma goodQueue_cons (s : MicroStep) (rest : List MicroStep) (hrest : rest ≠ [])
    (hgood : goodQueue (s :: rest) = true) :
    s.2 ≠ BusDir.read ReadOp.decode ∧ goodQueue rest = true := by
  cases rest with
  | nil => exact absurd rfl hrest
  | cons t ts =>
      rw [show goodQueue (s :: t :: ts) =
        (!(s.2 == BusDir.read ReadOp.decode) && goodQueue (t :: ts)) from rfl] at hgood
      simp only [Bool.and_eq_true, Bool.not_eq_eq_eq_not, Bool.not_true,
        beq_eq_false_iff_ne, ne_eq] at hgood
      exact hgood

lemma goodQueue_singleton (s : MicroStep) (h : goodQueue [s] = true) :
    s = decodeStep := by
  rw [goodQueue] at h
  exact eq_of_beq h

/-- Popping a non-decode front step always succeeds and leaves the rest of
the queue, except that a page-crossing branch check pushes the fix-up step. -/
lemma stepCycle_front (mem : Mem) (cpu : RP2A03) (af : AddrFn) (dir : BusDir)
    (rest : List MicroStep) (htm : cpu.timing = (af, dir) :: rest)
    (hnd : dir ≠ BusDir.read ReadOp.decode) :
    ∃ c2 mem2, stepCycle mem cpu = some (c2, mem2) ∧
      (c2.timing = rest ∨
        (dir = BusDir.read ReadOp.branchCheck ∧ c2.timing = branchFixStep :: rest)) := by
  cases dir with
  | write op =>
      refine
        ⟨(applyAddrFn af
            { (applyWrite op { cpu with timing := rest, cycles := cpu.cycles + 1 }).1 with
                busData :=
                  (applyWrite op
                    { cpu with timing := rest, cycles := cpu.cycles + 1 }).2 }).2,
          writeMem mem
            (applyAddrFn af
              { (applyWrite op { cpu with timing := rest, cycles := cpu.cycles + 1 }).1 with
                  busData :=
                    (applyWrite op
                      { cpu with timing := rest, cycles := cpu.cycles + 1 }).2 }).1.val
            (applyWrite op { cpu with timing := rest, cycles := cpu.cycles + 1 }).2,
          ?_, Or.inl ?_⟩
      · simp only [stepCycle, htm]
      · simp only [applyAddrFn_timing, applyWrite_fst_timing]
  | read op =>
      have hnd2 : op ≠ ReadOp.decode := fun hn => hnd (by rw [hn])
      obtain ⟨c3, har, hor⟩ := applyRead_nonDecode op
        { (applyAddrFn af { cpu with timing := rest, cycles := cpu.cycles + 1 }).2 with
            busData :=
              mem (applyAddrFn af
                { cpu with timing := rest, cycles := cpu.cycles + 1 }).1.val % 256 }
        (mem (applyAddrFn af
          { cpu with timing := rest, cycles := cpu.cycles + 1 }).1.val % 256) hnd2
      refine ⟨c3, mem, ?_, ?_⟩
      · simp only [stepCycle, htm, har, Option.map_some']
      · simp only [applyAddrFn_timing] at hor
        rcases hor with h5 | ⟨hbc, h5⟩
        · exact Or.inl h5
        · exact Or.inr ⟨by rw [hbc], h5⟩

/-- Any good queue completes, given fuel above its weighted length. -/
lemma completes_of_good :
    ∀ (fuel : Nat) (mem : Mem) (cpu : RP2A03),
      goodQueue cpu.timing = true → queuePot cpu.timing < fuel →
      completes fuel mem cpu = true := by
  intro fuel
  induction fuel with
  | zero =>
      intro mem cpu hgood hpot
      exact absurd hpot (by omega)
  | succ fuel ih =>
      intro mem cpu hgood hpot
      cases htm : cpu.timing with
      | nil => rw [htm] at hgood; exact absurd hgood (by rw [goodQueue]; simp)
      | cons s rest =>
          obtain ⟨af, dir⟩ := s
          simp only [completes, htm]
          by_cases hs : ((af, dir) : MicroStep) = decodeStep
          · rw [if_pos hs]
          · rw [if_neg hs]
            rw [htm] at hgood hpot
            have hrest : rest ≠ [] := by
              intro hn
              rw [hn] at hgood
              exact hs (goodQueue_singleton _ hgood)
            obtain ⟨hnd, hgood2⟩ := goodQueue_cons _ rest hrest hgood
            obtain ⟨c2, mem2, hsc, hor⟩ := stepCycle_front mem cpu af dir rest htm hnd
            rw [hsc]
            have hw1 : 1 ≤ stepWeight (af, dir) := by
              rw [stepWeight]; split <;> omega
            have hsum : queuePot ((af, dir) :: rest) =
                stepWeight (af, dir) + queuePot rest := by
              rw [queuePot, List.map_cons, List.sum_cons, queuePot]
            apply ih
            · rcases hor with h5 | ⟨hbc, h5⟩ <;> rw [h5]
              · exact hgood2
              · cases rest with
                | nil => exact absurd rfl hrest
                | cons t ts =>
                    rw [show goodQueue (branchFixStep :: t :: ts) =
                      (!(branchFixStep.2 == BusDir.read ReadOp.decode) &&
                        goodQueue (t :: ts)) from rfl]
                    simp [branchFixStep, hgood2]
            · rcases hor with h5 | ⟨hbc, h5⟩ <;> rw [h5]
              · omega
              · have hw2 : stepWeight (af, dir) = 2 := by
                  rw [hbc, stepWeight]
                  simp
                have hsum2 : queuePot (branchFixStep :: rest) =
                    stepWeight branchFixStep + queuePot rest := by
                  rw [queuePot, List.map_cons, List.sum_cons, queuePot]
                have hw3 : stepWeight branchFixStep = 1 := rfl
                omega

/-- Decode followed by a complete run of the enqueued microsteps, as a
single boolean check. -/
def decodeRuns (cpu : RP2A03) (op : Nat) (mem : Mem) : Bool :=
  match decodeOpcode cpu op with
  | none => false
  | some cpu1 => completes 8 mem cpu1

/-- Decidable template check used for the covered opcodes. -/
def tmplOK (op : Nat) (b : Bool) : Bool :=
  match decodeTemplate op b with
  | some l => goodQueue l && queuePot l ≤ 7
  | none => true

set_option maxRecDepth 100000 in
lemma tmplOK_all : ∀ op < 256, tmplOK op true = true ∧ tmplOK op false = true := by
  decide

set_option maxRecDepth 100000 in
lemma covered_iff_isSome : ∀ op < 256,
    (decide (op ∈ coveredOps) = (decodeTemplate op true).isSome) ∧
    (decide (op ∈ coveredOps) = (decodeTemplate op false).isSome) := by
  decide

lemma coveredOps_lt : ∀ op ∈ coveredOps, op < 256 := by decide

/-- The CPU state used for the decoder counterexample: any state whose queue
has just drained into the decode step. -/
def emptyQueueCpu : RP2A03 := { RP2A03.new with timing := [] }

/-- Claim C1 fails on the code as stated: opcode 0xBD (LDA absolute,X) hits
the `unimplemented!("a,x")` arm of `decode_addressing` and the decoder
panics instead of enqueueing a microstep sequence. -/
theorem claim_C1_cex : decodeOpcode emptyQueueCpu 0xBD = none := rfl

/-- Claim C1 (amended): an opcode decodes to a complete microstep sequence
exactly when it is in `coveredOps` (85 of the 256 opcode bytes); for every
covered opcode, from any CPU state with a drained queue and any memory, the
decoder enqueues a sequence that the engine runs to completion, reaching the
next decode step without any unimplemented step. -/
theorem claim_C1_amended :
    (∀ op, op < 256 → ∀ b, (op ∈ coveredOps ↔ (decodeTemplate op b).isSome = true)) ∧
    (∀ op, op ∈ coveredOps → ∀ (cpu : RP2A03) (mem : Mem), cpu.timing = [] →
      decodeRuns cpu op mem = true) := by
  have hiff : ∀ op, op < 256 → ∀ b,
      (op ∈ coveredOps ↔ (decodeTemplate op b).isSome = true) := by
    intro op hop b
    have h := covered_iff_isSome op hop
    cases b
    · rw [← h.2]
      simp
    · rw [← h.1]
      simp
  refine ⟨hiff, ?_⟩
  intro op hmem cpu mem htm
  have hop : op < 256 := coveredOps_lt op hmem
  have hsome := (hiff op hop (branchTaken op cpu.p)).mp hmem
  rw [decodeRuns]
  cases htl : decodeTemplate op (branchTaken op cpu.p) with
  | none => rw [htl] at hsome; exact absurd hsome (by simp)
  | some l =>
      have hok : tmplOK op (branchTaken op cpu.p) = true := by
        have h := tmplOK_all op hop
        cases hb : branchTaken op cpu.p
        · exact h.2
        · exact h.1
      rw [tmplOK, htl, Bool.and_eq_true] at hok
      have hdec : decodeOpcode cpu op =
          some { cpu with opcode := op, timing := cpu.timing ++ l } := by
        rw [decodeOpcode, htl]
        rfl
      rw [hdec]
      apply completes_of_good
      · simpa [htm] using hok.1
      · have := hok.2
        simp only [htm, List.nil_append]
        simp only [decide_eq_true_eq] at this
        omega

theorem claim_C1_witness :
    ((0xA9 : Nat) ∈ coveredOps) ∧
    (0xA9 ∈ coveredOps ↔ (decodeTemplate 0xA9 true).isSome = true) ∧
    decodeRuns emptyQueueCpu 0xA9 nopMem = true := by
  refine ⟨by decide, claim_C1_amended.1 0xA9 (by decide) true, ?_⟩
  exact claim_C1_amended.2 0xA9 (by decide) emptyQueueCpu nopMem rfl

/-! ## Claim C7: conditional branch timing -/

/-- Claim C7: from a decode boundary at PC = P holding a conditional-branch
opcode: when the tested flag does not match the polarity the branch takes
2 cycles and PC lands past the operand (P+2); when taken onto the same page
it takes 3 cycles and PC is `P+2 + sign_extend(operand)`; when taken across
a page it takes 4 cycles, and after the 3rd cycle the queued fix-up step
addresses the page-unadjusted `(PC.high, PC.low + operand)` while PC still
holds P+2, the corrected PC arriving only with the 4th cycle. -/
theorem claim_C7 (op P : Nat) (cpu : RP2A03) (mem : Mem)
    (hop : op &&& 0x1F = 0x10)
    (hops : op = 0x10 ∨ op = 0x30 ∨ op = 0x50 ∨ op = 0x70 ∨
      op = 0x90 ∨ op = 0xB0 ∨ op = 0xD0 ∨ op = 0xF0)
    (htm : cpu.timing = [decodeStep]) (hpc : cpu.pc = ⟨P⟩) (hP : P + 2 < 65536)
    (hmem : mem P = op) (hu8 : ∀ x, mem x < 256) :
    (branchTaken op cpu.p = false →
      (runN 2 mem cpu).map (fun s => (s.1.pc, s.1.timing, s.1.cycles)) =
        some (⟨P + 2⟩, [decodeStep], cpu.cycles + 2)) ∧
    (branchTaken op cpu.p = true →
      (⟨P + 2⟩ : Address).high = (Address.offset ⟨P + 2⟩ (mem (P + 1))).high →
      (runN 3 mem cpu).map (fun s => (s.1.pc, s.1.timing, s.1.cycles)) =
        some (Address.offset ⟨P + 2⟩ (mem (P + 1)), [decodeStep], cpu.cycles + 3)) ∧
    (branchTaken op cpu.p = true →
      (⟨P + 2⟩ : Address).high ≠ (Address.offset ⟨P + 2⟩ (mem (P + 1))).high →
      ((runN 3 mem cpu).map (fun s => (s.1.pc, s.1.timing)) =
        some (⟨P + 2⟩, [branchFixStep, decodeStep]) ∧
       (runN 3 mem cpu).map (fun s => (applyAddrFn AddrFn.pcOffsetWrapping s.1).1) =
        some (Address.new (Address.high ⟨P + 2⟩) (Address.low ⟨P + 2⟩ + mem (P + 1))) ∧
       (runN 4 mem cpu).map (fun s => (s.1.pc, s.1.timing, s.1.cycles)) =
        some (Address.offset ⟨P + 2⟩ (mem (P + 1)), [decodeStep], cpu.cycles + 4))) := by
  have hoplt : op < 256 := by rcases hops with h | h | h | h | h | h | h | h <;> omega
  have hopm : op % 256 = op := Nat.mod_eq_of_lt hoplt
  have hdm : ∀ x, mem x % 256 = mem x := fun x => Nat.mod_eq_of_lt (hu8 x)
  have hP1 : (P + 1) % 65536 = P + 1 := by omega
  have hP2 : (P + 1 + 1) % 65536 = P + 2 := by omega
  obtain ⟨tm, pc0, st, ab, ba, bd, av, xv, yv, pv, opc, o0, o1, cy⟩ := cpu
  replace htm : tm = [decodeStep] := htm
  replace hpc : pc0 = ⟨P⟩ := hpc
  subst htm hpc
  simp only [runN, stepCycle, applyAddrFn, applyRead, Address.increment,
    decodeOpcode, decodeTemplate, hop, hmem, hopm, hdm, hP1, hP2, hops,
    if_true, reduceIte, Option.map_some', decodeStep, branchBody,
    Address.offset, List.nil_append, List.cons_append, List.append_nil]
  refine ⟨?_, ?_, ?_⟩
  · intro ht
    rw [ht]
    simp only [Bool.false_eq_true, reduceIte, runN, stepCycle, applyAddrFn,
      applyRead, Address.increment, hdm, hP1, hP2, Option.map_some',
      List.nil_append, List.cons_append, List.append_nil]
  · intro ht hhigh
    rw [ht]
    simp only [if_true, reduceIte, runN, stepCycle, applyAddrFn, applyRead,
      Address.increment, hdm, hP1, hP2, Option.map_some', Address.offset,
      branchFixStep, List.nil_append, List.cons_append, List.append_nil]
    rw [if_neg (not_ne_iff.mpr hhigh)]
    simp only [Option.map_some']
  · intro ht hhigh
    rw [ht]
    simp only [if_true, reduceIte, runN, stepCycle, applyAddrFn, applyRead,
      Address.increment, hdm, hP1, hP2, Option.map_some', Address.offset,
      branchFixStep, List.nil_append, List.cons_append, List.append_nil]
    rw [if_pos hhigh]
    simp only [runN, stepCycle, applyAddrFn, applyRead, Option.map_some',
      Address.offset, branchFixStep, List.nil_append]
    refine ⟨?_, ?_, ?_⟩ <;> trivial

/-- Memory for the branch witness: BEQ $04 at $00FD (spec scenario D). -/
def brDemoMem : Mem := fun x => if x = 0xFD then 0xF0 else if x = 0xFE then 0x04 else 0xEA

def brDemoCpu : RP2A03 :=
  { RP2A03.new with
      timing := [decodeStep]
      pc := ⟨0xFD⟩
      p := { RP2A03.new.p with z := true } }

theorem claim_C7_witness :
    (runN 4 brDemoMem brDemoCpu).map (fun s => (s.1.pc, s.1.timing, s.1.cycles)) =
      some (⟨0x0103⟩, [decodeStep], 4) := by
  have hu8 : ∀ x, brDemoMem x < 256 := by
    intro x
    unfold brDemoMem
    split
    · decide
    · split <;> decide
  have h := (claim_C7 0xF0 0xFD brDemoCpu brDemoMem (by decide)
    (by decide) rfl rfl (by decide) rfl hu8).2.2 (by decide) (by decide)
  simpa using h.2.2

/-! ## Claim C8: JSR / RTS round trip -/

/-- Claim C8: a JSR at address C pushes the high byte and then the low byte
of `next_pc - 1 = C+2` onto the stack and lands PC on the target; the
matching RTS pulls them back and leaves PC at `C+3`, the instruction after
the JSR.  `T` is the jump target read from the operand bytes. -/
theorem claim_C8 (C S T : Nat) (cpu : RP2A03) (mem : Mem)
    (htm : cpu.timing = [decodeStep]) (hpc : cpu.pc = ⟨C⟩) (hst : cpu.stack = S)
    (hC : C + 3 < 65536) (hS : S < 256)
    (hmem0 : mem C = 0x20) (hu8 : ∀ x, mem x < 256)
    (hT : T = mem (C + 2) * 256 + mem (C + 1))
    (hmemT : mem T = 0x60)
    (hT1 : T ≠ 256 + S) (hT2 : T ≠ 256 + (S + 255) % 256)
    (hC2a : C + 2 ≠ 256 + S) (hC2b : C + 2 ≠ 256 + (S + 255) % 256) :
    ((runN 6 mem cpu).map (fun s => (s.1.pc, s.1.stack, s.1.timing)) =
      some (⟨T⟩, (S + 254) % 256, [decodeStep])) ∧
    ((runN 6 mem cpu).map (fun s => s.2 (256 + S)) = some (Address.high ⟨C + 2⟩)) ∧
    ((runN 6 mem cpu).map (fun s => s.2 (256 + (S + 255) % 256)) =
      some (Address.low ⟨C + 2⟩)) ∧
    ((runN 12 mem cpu).map (fun s => (s.1.pc, s.1.stack, s.1.timing)) =
      some (⟨C + 3⟩, S, [decodeStep])) := by
  have hdm : ∀ x, mem x % 256 = mem x := fun x => Nat.mod_eq_of_lt (hu8 x)
  have hdec20 : ∀ c : RP2A03, decodeOpcode c 0x20 =
      some { c with opcode := 0x20, timing := c.timing ++ jsrTemplate } :=
    fun c => rfl
  have hdec60 : ∀ c : RP2A03, decodeOpcode c 0x60 =
      some { c with opcode := 0x60, timing := c.timing ++ rtsTemplate } :=
    fun c => rfl
  have hC1 : (C + 1) % 65536 = C + 1 := by omega
  have hC2 : (C + 1 + 1) % 65536 = C + 2 := by omega
  have hS0 : S % 256 = S := by omega
  have hS1 : (S + 255) % 256 % 256 = (S + 255) % 256 := by omega
  have hS2 : ((S + 255) % 256 + 255) % 256 = (S + 254) % 256 := by omega
  have hS3 : ((S + 254) % 256 + 1) % 256 = (S + 255) % 256 := by omega
  have hS4 : ((S + 255) % 256 + 1) % 256 = S := by omega
  have hne1 : 256 + S ≠ 256 + (S + 255) % 256 := by omega
  obtain ⟨tm, pc0, st, ab, ba, bd, av, xv, yv, pv, opc, o0, o1, cy⟩ := cpu
  replace htm : tm = [decodeStep] := htm
  replace hpc : pc0 = ⟨C⟩ := hpc
  replace hst : st = S := hst
  subst htm hpc hst
  refine ⟨?_, ?_, ?_, ?_⟩ <;>
    · simp only [runN, stepCycle, applyAddrFn, applyRead, applyWrite,
        Address.increment, Address.new, Address.setLow, Address.setHigh,
        Address.high, Address.low, writeMem, decodeStep, jsrTemplate,
        rtsTemplate, hmem0, hdm, hdec20, hdec60, hC1, hC2, hS0, hS1, hS2,
        hS3, hS4, hne1, hT1, hT2, hC2a, hC2b, ← hT, hmemT,
        List.nil_append, List.cons_append, List.append_nil,
        Option.map_some', Option.some.injEq, Prod.mk.injEq, Address.mk.injEq,
        if_true, if_false, ite_true, ite_false, reduceIte]
      try omega
      try exact ⟨by omega, trivial⟩

/-- Memory for the JSR/RTS witness: `JSR $1234` at $C000, RTS at $1234
(spec scenario E). -/
def jsrDemoMem : Mem := fun a =>
  if a = 0xC000 then 0x20 else if a = 0xC001 then 0x34
  else if a = 0xC002 then 0x12 else if a = 0x1234 then 0x60 else 0xEA

def jsrDemoCpu : RP2A03 :=
  { RP2A03.new with
      timing := [decodeStep]
      pc := ⟨0xC000⟩
      stack := 0xFD }

theorem claim_C8_witness :
    ((runN 6 jsrDemoMem jsrDemoCpu).map (fun s => s.2 0x1FD) = some 0xC0) ∧
    ((runN 6 jsrDemoMem jsrDemoCpu).map (fun s => s.2 0x1FC) = some 0x02) ∧
    ((runN 12 jsrDemoMem jsrDemoCpu).map (fun s => (s.1.pc, s.1.stack, s.1.timing)) =
      some (⟨0xC003⟩, 0xFD, [decodeStep])) := by
  have hu8 : ∀ x, jsrDemoMem x < 256 := by
    intro x
    unfold jsrDemoMem
    split
    · decide
    split
    · decide
    split
    · decide
    split <;> decide
  have h := claim_C8 0xC000 0xFD 0x1234 jsrDemoCpu jsrDemoMem rfl rfl rfl
    (by decide) (by decide) rfl hu8 (by decide) rfl
    (by decide) (by decide) (by decide) (by decide)
  refine ⟨?_, ?_, ?_⟩
  · simpa using h.2.1
  · simpa using h.2.2.1
  · simpa using h.2.2.2

/-! ## Claim C10: rejected bus accesses do nothing (src/devices.rs, mapper.rs) -/

/-- `RamBank` (src/devices.rs); the backing array is a list. -/
structure RamBank where
  map : AddressMask
  memory : List Nat
deriving DecidableEq, Repr

/-- `RamBank::read`: remap, then index the backing memory. -/
def RamBank.read (rb : RamBank) (address : Address) : Option Nat :=
  (rb.map.remap address).map fun ramAddress => rb.memory.getD ramAddress.val 0

/-- `RamBank::write`: store and report `true` when the address remaps. -/
def RamBank.write (rb : RamBank) (address : Address) (data : Nat) : Bool × RamBank :=
  match rb.map.remap address with
  | some ramAddress => (true, { rb with memory := rb.memory.set ramAddress.val data })
  | none => (false, rb)

/-- `NromPrgMapper` (src/famicom/mapper.rs). -/
structure NromPrgMapper where
  prgRamMap : Option AddressMask
  prgRam : List Nat
  prgRomMap : AddressMask
  prgRom : List Nat
deriving DecidableEq, Repr

/-- `NromPrgMapper::read`: ROM window first, or else the optional RAM window. -/
def NromPrgMapper.read (m : NromPrgMapper) (address : Address) : Option Nat :=
  match (m.prgRomMap.remap address).map (fun a => m.prgRom.getD a.val 0) with
  | some v => some v
  | none =>
      m.prgRamMap.bind fun mask =>
        (mask.remap address).map fun a => m.prgRam.getD a.val 0

/-- `NromPrgMapper::write`: only the optional RAM window accepts writes. -/
def NromPrgMapper.write (m : NromPrgMapper) (address : Address) (data : Nat) :
    Bool × NromPrgMapper :=
  match m.prgRamMap.bind (fun mask => mask.remap address) with
  | some ramOffset => (true, { m with prgRam := m.prgRam.set ramOffset.val data })
  | none => (false, m)

/-- Claim C10: for the RAM bank and the NROM PRG mapper, an address outside
every decoded window makes `read` return `None` and makes `write` return
`false` while leaving the device (its entire backing memory included)
unchanged: a rejected access observably does nothing. -/
theorem claim_C10 :
    (∀ (rb : RamBank) (a : Address) (d : Nat), rb.map.remap a = none →
      rb.read a = none ∧ rb.write a d = (false, rb)) ∧
    (∀ (m : NromPrgMapper) (a : Address) (d : Nat),
      m.prgRomMap.remap a = none →
      (∀ mask, m.prgRamMap = some mask → mask.remap a = none) →
      m.read a = none ∧ m.write a d = (false, m)) := by
  constructor
  · intro rb a d h
    constructor
    · rw [RamBank.read, h]
      rfl
    · rw [RamBank.write]
      rw [h]
  · intro m a d hrom hram
    have hbind : m.prgRamMap.bind (fun mask => mask.remap a) = none := by
      cases hm : m.prgRamMap with
      | none => rfl
      | some mask => simpa using hram mask hm
    constructor
    · rw [NromPrgMapper.read, hrom]
      simpa using hbind
    · rw [NromPrgMapper.write]
      rw [hbind]

def demoRam : RamBank := { map := AddressMask.fromBlock ⟨0⟩ 3 2, memory := [] }

def demoNrom : NromPrgMapper :=
  { prgRamMap := none
    prgRam := []
    prgRomMap := AddressMask.fromBlock ⟨0x8000⟩ 1 1
    prgRom := [] }

theorem claim_C10_witness :
    demoRam.map.remap ⟨0x2000⟩ = none ∧
    demoRam.read ⟨0x2000⟩ = none ∧ demoRam.write ⟨0x2000⟩ 5 = (false, demoRam) ∧
    demoNrom.prgRomMap.remap ⟨0x4000⟩ = none ∧
    demoNrom.read ⟨0x4000⟩ = none ∧ demoNrom.write ⟨0x4000⟩ 5 = (false, demoNrom) := by
  have h1 := claim_C10.1 demoRam ⟨0x2000⟩ 5 (by decide)
  have h2 := claim_C10.2 demoNrom ⟨0x4000⟩ 5 (by decide) (by intro mask hm; cases hm)
  exact ⟨by decide, h1.1, h1.2, by decide, h2.1, h2.2⟩

end Feo6502
